import Mathlib

/-!
Shallow embedding of the abacus-rs ledger engine (src/accounts.rs, src/price.rs,
src/transaction.rs, src/utils.rs, src/ledger.rs).

Modelling conventions:
* Rust `f32` monetary amounts are modelled as `ℚ` (exact arithmetic); every
  concrete value appearing in the claims is exactly representable in `f32`,
  and the code performs only `+`, `*` and `== 0.0` comparisons on them.
* `chrono::NaiveDate` is modelled as a year/month/day record ordered
  lexicographically (which is chronological order for calendar dates);
  `NaiveDate::default()` is 1970-01-01.
* Rust `HashMap<K, V>` values built by `entry(k).or_insert(v)` updates are
  modelled as association lists with unique keys, updated in place; the
  claims only observe lookups and key membership, which are order-independent.
* Panics (`panic!` in `validate_transactions`) are modelled as `Except` errors.
-/

namespace Abacus

/-- Calendar date, modelling `chrono::NaiveDate` (year, month 1-12, day). -/
structure Date where
  year : Nat
  month : Nat
  day : Nat
deriving DecidableEq

/-- The date `NaiveDate::default()`, i.e. 1970-01-01. -/
def Date.epoch : Date := ⟨1970, 1, 1⟩

/-- Chronological (lexicographic) order on dates, modelling `NaiveDate`'s `Ord`. -/
def Date.le (a b : Date) : Bool :=
  a.year < b.year ||
    (a.year == b.year &&
      (a.month < b.month || (a.month == b.month && a.day ≤ b.day)))

theorem Date.le_refl (a : Date) : Date.le a a = true := by
  simp [Date.le]

theorem Date.le_trans {a b c : Date} (h1 : Date.le a b = true)
    (h2 : Date.le b c = true) : Date.le a c = true := by
  simp only [Date.le, Bool.or_eq_true, Bool.and_eq_true, decide_eq_true_eq,
    beq_iff_eq] at h1 h2 ⊢
  omega

theorem Date.le_total (a b : Date) : Date.le a b = true ∨ Date.le b a = true := by
  simp only [Date.le, Bool.or_eq_true, Bool.and_eq_true, decide_eq_true_eq,
    beq_iff_eq]
  omega

instance {ε α : Type} [DecidableEq ε] [DecidableEq α] :
    DecidableEq (Except ε α) := fun
  | .ok a, .ok b => decidable_of_iff (a = b) (by simp)
  | .ok _, .error _ => isFalse (by simp)
  | .error _, .ok _ => isFalse (by simp)
  | .error a, .error b => decidable_of_iff (a = b) (by simp)

/-- Rust's `str::replace('"', "")` as used by the entity constructors: remove
every double-quote character. (Implemented by structural recursion over the
character list so that it evaluates.) -/
def stripQuotes (s : String) : String :=
  ⟨s.data.filter (fun c => decide (c ≠ '"'))⟩

/-- The `AccountType` enum from src/accounts.rs. -/
inductive AccountType
  | Assets
  | Income
  | Liabilities
  | Expenses
  | Equity
  | Stocks
  | MutualFunds
  | Holdings
  | Cash
  | Unknown
deriving DecidableEq

/-- Models `impl FromStr for AccountType` (src/accounts.rs): every arm returns `Ok`,
including the catch-all, which yields `Unknown`; the error type is never
produced. -/
def AccountType.fromStr (input : String) : Except Unit AccountType :=
  .ok (match input with
    | "Assets" => .Assets
    | "Income" => .Income
    | "Liabilities" => .Liabilities
    | "Expenses" => .Expenses
    | "Equity" => .Equity
    | "Stocks" => .Stocks
    | "MutualFunds" => .MutualFunds
    | "Holdings" => .Holdings
    | "Cash" => .Cash
    | _ => .Unknown)

/-- Rust `Result::unwrap_or` specialised to the shapes used in the ledger. -/
def unwrapOr {ε α : Type} (e : Except ε α) (d : α) : α :=
  match e with
  | .ok a => a
  | .error _ => d

/-- Rust `Result::ok`, turning a `Result` into an `Option` (used by
`parse_value`'s `s.parse().ok()`). -/
def resultOk {ε α : Type} (e : Except ε α) : Option α :=
  match e with
  | .ok a => some a
  | .error _ => none

/-- The `Account` struct from src/accounts.rs. The Rust field `open` is a Lean
keyword, so it is called `openDate` here. -/
structure Account where
  name : String
  openDate : Date
  currency : String
  account_type : AccountType
  opening_balance : Option ℚ
deriving DecidableEq

/-- Models `Account::new` (src/accounts.rs): strips double quotes from `name` and
`currency`. -/
def Account.new (name : String) (openDate : Date) (currency : String)
    (account_type : AccountType) (opening_balance : Option ℚ) : Account :=
  ⟨stripQuotes name, openDate, stripQuotes currency, account_type,
    opening_balance⟩

/-- The `Transaction` struct from src/transaction.rs. -/
structure Transaction where
  date : Date
  account : String
  note : Option String
  payee : Option String
  quantity : ℚ
  amount : ℚ
  offset_account : String
  offset_amount : ℚ
deriving DecidableEq

/-- Models `Transaction::new` (src/transaction.rs): strips double quotes from
`account` and `offset_account`. -/
def Transaction.new (date : Date) (account : String) (payee : Option String)
    (quantity : ℚ) (amount : ℚ) (offset_account : String)
    (offset_amount : ℚ) (note : Option String) : Transaction :=
  ⟨date, stripQuotes account, note, payee, quantity, amount,
    stripQuotes offset_account, offset_amount⟩

/-- The `Price` struct from src/price.rs. -/
structure Price where
  date : Date
  commodity : String
  price : ℚ
  currency : String
deriving DecidableEq

/-- Models `Price::new` (src/price.rs): strips double quotes from `commodity` and
`currency`. -/
def Price.new (date : Date) (commodity : String) (price : ℚ)
    (currency : String) : Price :=
  ⟨date, stripQuotes commodity, price, stripQuotes currency⟩

/-- The `Ledger` struct from src/ledger.rs. -/
structure Ledger where
  accounts : List Account
  transactions : List Transaction
  prices : List Price
deriving DecidableEq

/-- The two panics of `Ledger::validate_transactions` (src/ledger.rs:146 and
src/ledger.rs:159), modelled as error values. -/
inductive VError
  | unknownAccount (name : String)
  | unbalanced (t : Transaction)
deriving DecidableEq

/-- One iteration of the loop body of `validate_transactions`
(src/ledger.rs:142-164): the referential check on `t.account` (a panic is an
`unknownAccount` error), then the balance check, which only fires when the
postings do not sum to zero and both legs' accounts are found with equal
currencies. -/
def validateOne (accounts : List Account) (t : Transaction) :
    Except VError Unit :=
  let account_exists := accounts.any (fun a => decide (a.name = t.account))
  if !account_exists then
    .error (.unknownAccount t.account)
  else
    let sum_postings := t.amount + t.offset_amount
    if sum_postings ≠ 0 then
      match accounts.find? (fun a => decide (a.name = t.account)),
            accounts.find? (fun a => decide (a.name = t.offset_account)) with
      | some ac, some oc =>
          if ac.currency = oc.currency then .error (.unbalanced t) else .ok ()
      | some _, none => .ok ()
      | none, _ => .ok ()
    else
      .ok ()

/-- The loop of `validate_transactions` over a transaction list: the first
panic aborts the whole run. -/
def validateList (accounts : List Account) :
    List Transaction → Except VError Unit
  | [] => .ok ()
  | t :: ts =>
    match validateOne accounts t with
    | .ok _ => validateList accounts ts
    | .error e => .error e

/-- Models `Ledger::validate_transactions` (src/ledger.rs:141-165). -/
def validate_transactions (l : Ledger) : Except VError Unit :=
  validateList l.accounts l.transactions

/-- First-match lookup in an association list, modelling `HashMap` lookup
(keys are unique in every map the code builds, so first-match is exact). -/
def lookupA {κ α : Type} [DecidableEq κ] : List (κ × α) → κ → Option α
  | [], _ => none
  | (k0, v0) :: rest, k => if k0 = k then some v0 else lookupA rest k

/-- Balances map: `HashMap<String, f32>` as an association list. -/
abbrev Balances := List (String × ℚ)

/-- Models `balances.entry(k).or_insert(0.0)` followed by `+= v`: add `v` to `k`'s
entry, inserting `0.0` first when absent. -/
def addB : Balances → String → ℚ → Balances
  | [], k, v => [(k, 0 + v)]
  | (k0, v0) :: rest, k, v =>
    if k0 = k then (k0, v0 + v) :: rest else (k0, v0) :: addB rest k v

/-- Models `balances.entry(k).or_insert(0.0)` followed by `*= r`: multiply `k`'s
entry by `r`, inserting `0.0` first when absent. -/
def mulB : Balances → String → ℚ → Balances
  | [], k, r => [(k, 0 * r)]
  | (k0, v0) :: rest, k, r =>
    if k0 = k then (k0, v0 * r) :: rest else (k0, v0) :: mulB rest k r

/-- The opening-balance seeding loop of `_get_balances` (src/ledger.rs:351-354):
each account's entry is created (at 0.0) and its `opening_balance` (0 when
absent) added. -/
def seedBalances (accounts : List Account) : Balances :=
  accounts.foldl (fun m a => addB m a.name (a.opening_balance.getD 0)) []

/-- The transaction loop of `_get_balances` (src/ledger.rs:355-360): the
`account` leg receives `amount * quantity`, the `offset_account` leg receives
`offset_amount` (no quantity multiplier). -/
def applyTransactions (m : Balances) (ts : List Transaction) : Balances :=
  ts.foldl
    (fun m t =>
      addB (addB m t.account (t.amount * t.quantity)) t.offset_account
        t.offset_amount)
    m

/-- Stable descending-by-date insertion: the inserted element goes before the
first element whose date it is ≥, so elements with equal dates keep their
original relative order (Rust's `sort_by(|a, b| b.date.cmp(&a.date))` is a
stable descending sort). -/
def insertDesc (p : Price) : List Price → List Price
  | [] => [p]
  | q :: rest =>
    if Date.le q.date p.date then p :: q :: rest else q :: insertDesc p rest

/-- Stable sort of prices by descending date. -/
def sortByDateDesc : List Price → List Price
  | [] => []
  | p :: rest => insertDesc p (sortByDateDesc rest)

/-- Models `relevant_prices.entry(commodity).or_insert(last_price)`: insert only when
the key is absent (`HashMap::entry(..).or_insert`). -/
def insertIfAbsent (m : List (String × ℚ)) (k : String) (v : ℚ) :
    List (String × ℚ) :=
  if m.any (fun kv => decide (kv.1 = k)) then m else m ++ [(k, v)]

/-- The `relevant_prices` computation of `_get_balances`
(src/ledger.rs:363-372): filter prices quoted in the target currency, sort by
descending date, then keep the first (most recent) rate per commodity. -/
def relevantPrices (prices : List Price) (target : String) :
    List (String × ℚ) :=
  let selected_currency :=
    sortByDateDesc (prices.filter (fun c => decide (c.currency = target)))
  selected_currency.foldl (fun m p => insertIfAbsent m p.commodity p.price) []

/-- The re-pricing loop of `_get_balances` (src/ledger.rs:374-381): for every
account and every (commodity, rate) pair, if the commodity equals the
account's currency, multiply the account's entry in place. -/
def applyPricing (accounts : List Account) (rp : List (String × ℚ))
    (m : Balances) : Balances :=
  accounts.foldl
    (fun m a =>
      rp.foldl
        (fun m cr => if cr.1 = a.currency then mulB m a.name cr.2 else m) m)
    m

/-- Models `Ledger::_get_balances` (src/ledger.rs:345-384): seed opening balances,
accumulate the transaction legs, then (when a target currency is given)
re-price each account whose currency has a relevant rate. -/
def _get_balances (l : Ledger) (transactions : List Transaction)
    (price : Option String) : Balances :=
  let m := applyTransactions (seedBalances l.accounts) transactions
  match price with
  | some p => applyPricing l.accounts (relevantPrices l.prices p) m
  | none => m

/-- Models `quarter` (src/utils.rs:85-93). The source's `_ => unreachable!()` arm
panics; it is modelled by the junk value 0, and is indeed unreachable because
`NaiveDate::month()` is always in 1..=12. -/
def quarter (month : Nat) : Nat :=
  match month with
  | 1 | 2 | 3 => 1
  | 4 | 5 | 6 => 2
  | 7 | 8 | 9 => 3
  | 10 | 11 | 12 => 4
  | _ => 0

/-- The bucket-key derivation of `_group_transactions_by_period`
(src/ledger.rs:398-410). -/
def periodOf (group : Option String) (d : Date) : Nat × Nat :=
  let month := d.month
  let q := quarter d.month
  let year := d.year
  match group with
  | some g =>
    match g with
    | "M" => (year, month)
    | "Q" => (year, q)
    | "Y" => (year, year)
    | _ => (0, 0)
  | none => (0, 0)

/-- Models `transactions_by_period.entry(period).or_insert_with(Vec::new).push(entry)`
(src/ledger.rs:413-416): append the transaction to its period's bucket,
creating the bucket when absent. -/
def pushEntry (m : List ((Nat × Nat) × List Transaction)) (p : Nat × Nat)
    (t : Transaction) : List ((Nat × Nat) × List Transaction) :=
  match m with
  | [] => [(p, [t])]
  | (p0, ts) :: rest =>
    if p0 = p then (p0, ts ++ [t]) :: rest else (p0, ts) :: pushEntry rest p t

/-- Models `bal.retain(|_, &mut value| value != 0.0)` (src/ledger.rs:424). -/
def retainNonzero (m : Balances) : Balances :=
  m.filter (fun kv => decide (kv.2 ≠ 0))

/-- Models `Ledger::_group_transactions_by_period` (src/ledger.rs:387-428): bucket
the transactions by period key, then compute each bucket's balances with
`_get_balances` (which re-seeds every account's opening balance) and drop
entries that are exactly zero. -/
def _group_transactions_by_period (l : Ledger)
    (transactions : List Transaction) (price : Option String)
    (group : Option String) : List ((Nat × Nat) × Balances) :=
  let transactions_by_period :=
    transactions.foldl (fun m t => pushEntry m (periodOf group t.date) t) []
  transactions_by_period.map
    (fun pt => (pt.1, retainNonzero (_get_balances l pt.2 price)))

/-- Models `Ledger::_query_by_account_name` (src/ledger.rs:431-437). -/
def _query_by_account_name (l : Ledger) (account_name : String) :
    List Account :=
  l.accounts.filter (fun a => decide (a.name = account_name))

/-- Models `Ledger::_query_by_account_type` (src/ledger.rs:440-449): the filter
string is parsed with `AccountType::from_str(..).unwrap_or(Assets)`; since
`from_str` is total the `unwrap_or` default is dead code. -/
def _query_by_account_type (l : Ledger) (account_type : String) :
    List Account :=
  l.accounts.filter
    (fun a =>
      decide (a.account_type = unwrapOr (AccountType.fromStr account_type)
        AccountType.Assets))

/-- Models `Ledger::_query_by_transaction_payee` (src/ledger.rs:461-467). -/
def _query_by_transaction_payee (l : Ledger) (payee : String) :
    List Transaction :=
  l.transactions.filter (fun t => decide (t.payee = some payee))

/-- Days per month with the Gregorian leap rule, used to delimit which
strings `chrono::NaiveDate::from_str` accepts. -/
def daysInMonth (y m : Nat) : Nat :=
  if m = 2 then
    if (y % 4 = 0 ∧ y % 100 ≠ 0) ∨ y % 400 = 0 then 29 else 28
  else if m = 4 ∨ m = 6 ∨ m = 9 ∨ m = 11 then 30 else 31

/-- Split a character list at each dash. -/
def splitDash : List Char → List Char → List (List Char)
  | [], acc => [acc.reverse]
  | c :: rest, acc =>
    if c = '-' then acc.reverse :: splitDash rest []
    else splitDash rest (c :: acc)

/-- Parse a non-empty all-digit character list as a decimal number. -/
def digitsToNat (cs : List Char) : Option Nat :=
  if !cs.isEmpty && cs.all (fun c => c.isDigit) then
    some (cs.foldl (fun n c => 10 * n + (c.toNat - 48)) 0)
  else none

/-- Models the external boundary `chrono::NaiveDate::from_str` on ISO
`year-month-day` input: three dash-separated decimal fields forming a valid
calendar date; anything else fails to parse. -/
def parseDate (s : String) : Option Date :=
  match splitDash s.data [] with
  | [ys, ms, ds] =>
    match digitsToNat ys, digitsToNat ms, digitsToNat ds with
    | some y, some m, some d =>
      if 1 ≤ m ∧ m ≤ 12 ∧ 1 ≤ d ∧ d ≤ daysInMonth y m then
        some ⟨y, m, d⟩
      else
        none
    | _, _, _ => none
  | _ => none

/-- Models `Ledger::_query_by_transaction_date` (src/ledger.rs:470-483): an absent
`from` defaults to the string "1970-01-01", an absent `to` to "2999-01-01";
each bound is parsed and an unparseable bound falls back to
`NaiveDate::default()` (1970-01-01) via `unwrap_or_default`; the surviving
transactions satisfy `from ≤ date ≤ to` inclusively. -/
def _query_by_transaction_date (l : Ledger) (fromStr toStr : Option String) :
    List Transaction :=
  let fromDate := (parseDate (fromStr.getD "1970-01-01")).getD Date.epoch
  let toDate := (parseDate (toStr.getD "2999-01-01")).getD Date.epoch
  l.transactions.filter
    (fun t => Date.le fromDate t.date && Date.le t.date toDate)

/-- The transaction-filter stage of `print_journal` (src/ledger.rs:179-189):
a date filter is computed first, but a requested payee filter REPLACES it
(the payee query runs over the full transaction list). -/
def journalTransactionFilter (l : Ledger)
    (fromStr toStr payee : Option String) : List Transaction :=
  let filtered_transactions :=
    match fromStr, toStr with
    | some f, some t => _query_by_transaction_date l (some f) (some t)
    | some f, none => _query_by_transaction_date l (some f) none
    | none, some t => _query_by_transaction_date l none (some t)
    | none, none => l.transactions
  match payee with
  | some p => _query_by_transaction_payee l p
  | none => filtered_transactions

/-- The account-filter stage of `print_journal` (src/ledger.rs:191-198): a
type filter is computed first, but a requested name filter REPLACES it. -/
def journalAccountFilter (l : Ledger) (account_type name : Option String) :
    List Account :=
  let filtered_accounts :=
    match account_type with
    | some t => _query_by_account_type l t
    | none => l.accounts
  match name with
  | some n => _query_by_account_name l n
  | none => filtered_accounts

/-- The set of transactions `print_journal` emits (src/ledger.rs:203-225): a
surviving transaction is printed when some account surviving the account
filters matches its `account` or its `offset_account`. (The source first
sorts transactions by date, which permutes but does not change this set.) -/
def journalEmitted (l : Ledger)
    (fromStr toStr account_type name payee : Option String) :
    List Transaction :=
  (journalTransactionFilter l fromStr toStr payee).filter
    (fun t =>
      (journalAccountFilter l account_type name).any
        (fun a => decide (a.name = t.account) || decide (a.name = t.offset_account)))

/-- A raw `[[account]]` record as seen by `_get_accounts`: the result of each
optional TOML field lookup. `name`, `currency` and `type_` are the
`parse_value` string results; `openDate` is the `parse_value::<NaiveDate>`
result; `opening_balance` is the parsed optional float. -/
structure RawAccount where
  name : Option String
  openDate : Option Date
  currency : Option String
  type_ : Option String
  opening_balance : Option ℚ
deriving DecidableEq

/-- The per-record body of `_get_accounts` (src/ledger.rs:42-57): every
missing field is silently defaulted — `name`/`currency` to the empty string,
`open` to `NaiveDate::default()` (1970-01-01), the account type to
`Assets` (`account_type.unwrap_or(AccountType::Assets)`), and the type
string, when present, is parsed with the total `from_str` (unrecognized →
`Unknown`). -/
def mkAccount (r : RawAccount) : Account :=
  let account_type := r.type_.bind (fun s => resultOk (AccountType.fromStr s))
  Account.new (r.name.getD "") (r.openDate.getD Date.epoch)
    (r.currency.getD "") (account_type.getD AccountType.Assets)
    r.opening_balance

/-- Models `Ledger::_get_accounts` (src/ledger.rs:37-66): an absent `[[account]]`
array yields the empty list; otherwise every record is converted with
`mkAccount`; the function always returns `Ok`. -/
def _get_accounts (account_list : Option (List RawAccount)) :
    Except String (List Account) :=
  match account_list with
  | some list => .ok (list.map mkAccount)
  | none => .ok []

/-! ## Validator lemmas -/

theorem validateOne_unknown (accounts : List Account) (t : Transaction)
    (h : accounts.find? (fun a => decide (a.name = t.account)) = none) :
    validateOne accounts t = .error (.unknownAccount t.account) := by
  have hany : accounts.any (fun a => decide (a.name = t.account)) = false := by
    simp only [List.find?_eq_none] at h
    simp only [List.any_eq_false]
    exact fun a ha => by simpa using h a ha
  simp [validateOne, hany]

theorem validateOne_found_ne_unknown (accounts : List Account)
    (t : Transaction) (ac : Account)
    (hac : accounts.find? (fun a => decide (a.name = t.account)) = some ac) :
    ∀ n, validateOne accounts t ≠ .error (.unknownAccount n) := by
  intro n
  have hany : accounts.any (fun a => decide (a.name = t.account)) = true := by
    simp only [List.any_eq_true]
    have := List.find?_some hac
    have hmem := List.mem_of_find?_eq_some hac
    exact ⟨ac, hmem, this⟩
  simp only [validateOne, hany, Bool.not_true, Bool.false_eq_true, if_false]
  split
  · split
    · split <;> simp
    · simp
    · simp
  · simp

theorem validateOne_balanced (accounts : List Account) (t : Transaction)
    (ac : Account)
    (hac : accounts.find? (fun a => decide (a.name = t.account)) = some ac)
    (h0 : t.amount + t.offset_amount = 0) :
    validateOne accounts t = .ok () := by
  have hany : accounts.any (fun a => decide (a.name = t.account)) = true := by
    simp only [List.any_eq_true]
    have hp := List.find?_some hac
    exact ⟨ac, List.mem_of_find?_eq_some hac, hp⟩
  simp [validateOne, hany, h0]

theorem validateOne_unbalanced (accounts : List Account) (t : Transaction)
    (ac oc : Account)
    (hac : accounts.find? (fun a => decide (a.name = t.account)) = some ac)
    (hoc : accounts.find? (fun a => decide (a.name = t.offset_account)) = some oc)
    (hcur : ac.currency = oc.currency)
    (h0 : t.amount + t.offset_amount ≠ 0) :
    validateOne accounts t = .error (.unbalanced t) := by
  have hany : accounts.any (fun a => decide (a.name = t.account)) = true := by
    simp only [List.any_eq_true]
    have hp := List.find?_some hac
    exact ⟨ac, List.mem_of_find?_eq_some hac, hp⟩
  simp [validateOne, hany, h0, hac, hoc, hcur]

theorem validateOne_cross_currency (accounts : List Account) (t : Transaction)
    (ac oc : Account)
    (hac : accounts.find? (fun a => decide (a.name = t.account)) = some ac)
    (hoc : accounts.find? (fun a => decide (a.name = t.offset_account)) = some oc)
    (hcur : ac.currency ≠ oc.currency) :
    validateOne accounts t = .ok () := by
  have hany : accounts.any (fun a => decide (a.name = t.account)) = true := by
    simp only [List.any_eq_true]
    have hp := List.find?_some hac
    exact ⟨ac, List.mem_of_find?_eq_some hac, hp⟩
  by_cases h0 : t.amount + t.offset_amount = 0
  · simp [validateOne, hany, h0]
  · simp [validateOne, hany, h0, hac, hoc, hcur]

theorem validateOne_missing_offset (accounts : List Account) (t : Transaction)
    (ac : Account)
    (hac : accounts.find? (fun a => decide (a.name = t.account)) = some ac)
    (hoc : accounts.find? (fun a => decide (a.name = t.offset_account)) = none) :
    validateOne accounts t = .ok () := by
  have hany : accounts.any (fun a => decide (a.name = t.account)) = true := by
    simp only [List.any_eq_true]
    have hp := List.find?_some hac
    exact ⟨ac, List.mem_of_find?_eq_some hac, hp⟩
  by_cases h0 : t.amount + t.offset_amount = 0
  · simp [validateOne, hany, h0]
  · simp [validateOne, hany, h0, hac, hoc]

theorem validateList_ok_iff (accounts : List Account)
    (ts : List Transaction) :
    validateList accounts ts = .ok () ↔
      ∀ t ∈ ts, validateOne accounts t = .ok () := by
  induction ts with
  | nil => simp [validateList]
  | cons t ts ih =>
    simp only [validateList]
    cases h : validateOne accounts t with
    | ok u =>
      cases u
      simp [h, ih]
    | error e =>
      simp only [List.mem_cons]
      constructor
      · intro hcontra
        exact absurd hcontra (by simp)
      · intro hall
        have := hall t (Or.inl rfl)
        rw [h] at this
        exact absurd this (by simp)

/-! ## Concrete fixtures used by witnesses and counterexamples -/

/-- USD account with an opening balance of 100. -/
def accChecking : Account := ⟨"Checking", ⟨2023, 1, 1⟩, "USD", .Assets, some 100⟩

/-- USD account with no opening balance. -/
def accSavings : Account := ⟨"Savings", ⟨2023, 1, 1⟩, "USD", .Assets, none⟩

/-- EUR account, for cross-currency cases. -/
def accEuro : Account := ⟨"Euro", ⟨2023, 1, 1⟩, "EUR", .Equity, none⟩

/-- A balanced transaction between the two USD accounts. -/
def txBalanced : Transaction :=
  ⟨⟨2023, 10, 10⟩, "Checking", none, none, 1, 20, "Savings", -20⟩

/-- A non-zero-sum transaction whose offset account is undeclared. -/
def txMissingOffset : Transaction :=
  ⟨⟨2023, 10, 10⟩, "Checking", none, none, 1, 1, "Nowhere", 0⟩

/-- A non-zero-sum transaction between accounts of different currencies. -/
def txCross : Transaction :=
  ⟨⟨2023, 10, 10⟩, "Checking", none, none, 1, 1, "Euro", 0⟩

/-- A non-zero-sum transaction both of whose legs are undeclared. -/
def txGhost : Transaction :=
  ⟨⟨2023, 1, 1⟩, "Ghost", none, none, 1, 1, "Phantom", 0⟩

/-- A balanced transaction whose offset account is undeclared. -/
def txOffsetUndeclared : Transaction :=
  ⟨⟨2023, 10, 10⟩, "Checking", none, none, 1, 20, "Nowhere", -20⟩

/-! ## C1: balance validation -/

/-- C1 (amended): for every transaction whose two legs resolve to declared
accounts of the same currency, validation passes iff the two amounts sum to
exactly zero; a non-zero sum is accepted silently when the offset leg's
account is not found or the two currencies differ; but when the account leg
itself is not found, validation fails with `UnknownAccount` (from the
referential check that precedes the balance check) rather than passing
silently. -/
theorem claim_C1_thm :
    (∀ (accounts : List Account) (t : Transaction) (ac oc : Account),
        accounts.find? (fun a => decide (a.name = t.account)) = some ac →
        accounts.find? (fun a => decide (a.name = t.offset_account)) = some oc →
        ac.currency = oc.currency →
        (validateOne accounts t = .ok () ↔ t.amount + t.offset_amount = 0)) ∧
    (∀ (accounts : List Account) (t : Transaction) (ac : Account),
        accounts.find? (fun a => decide (a.name = t.account)) = some ac →
        accounts.find? (fun a => decide (a.name = t.offset_account)) = none →
        validateOne accounts t = .ok ()) ∧
    (∀ (accounts : List Account) (t : Transaction) (ac oc : Account),
        accounts.find? (fun a => decide (a.name = t.account)) = some ac →
        accounts.find? (fun a => decide (a.name = t.offset_account)) = some oc →
        ac.currency ≠ oc.currency →
        validateOne accounts t = .ok ()) ∧
    (∀ (accounts : List Account) (t : Transaction),
        accounts.find? (fun a => decide (a.name = t.account)) = none →
        validateOne accounts t = .error (.unknownAccount t.account)) := by
  refine ⟨?_, ?_, ?_, ?_⟩
  · intro accounts t ac oc hac hoc hcur
    constructor
    · intro hok
      by_contra h0
      have herr := validateOne_unbalanced accounts t ac oc hac hoc hcur h0
      rw [herr] at hok
      exact absurd hok (by simp)
    · intro h0
      exact validateOne_balanced accounts t ac hac h0
  · intro accounts t ac hac hoc
    exact validateOne_missing_offset accounts t ac hac hoc
  · intro accounts t ac oc hac hoc hcur
    exact validateOne_cross_currency accounts t ac oc hac hoc hcur
  · intro accounts t h
    exact validateOne_unknown accounts t h

/-- C1 witness: the four parts of the theorem instantiated at concrete
inputs. -/
theorem claim_C1_thm_witness :
    (validateOne [accChecking, accSavings] txBalanced = .ok () ↔
      txBalanced.amount + txBalanced.offset_amount = 0) ∧
    validateOne [accChecking] txMissingOffset = .ok () ∧
    validateOne [accChecking, accEuro] txCross = .ok () ∧
    validateOne [accChecking] txGhost = .error (.unknownAccount "Ghost") :=
  ⟨claim_C1_thm.1 [accChecking, accSavings] txBalanced accChecking accSavings
      rfl rfl rfl,
    claim_C1_thm.2.1 [accChecking] txMissingOffset accChecking rfl rfl,
    claim_C1_thm.2.2.1 [accChecking, accEuro] txCross accChecking accEuro rfl
      rfl (by decide),
    claim_C1_thm.2.2.2 [accChecking] txGhost rfl⟩

/-- C1 counterexample: as stated, the claim says a transaction with a
non-zero sum whose legs reference undeclared accounts is "accepted silently
and no error is raised"; but `txGhost` (account leg undeclared, sum 1 ≠ 0)
makes validation fail with `UnknownAccount`. -/
theorem claim_C1_cex :
    validateOne [] txGhost = .error (.unknownAccount "Ghost") ∧
    txGhost.amount + txGhost.offset_amount ≠ 0 ∧
    List.find? (fun a => decide (a.name = txGhost.account))
      ([] : List Account) = none :=
  ⟨validateOne_unknown [] txGhost rfl, by norm_num [txGhost], rfl⟩

/-! ## C3: referential check -/

/-- C3 counterexample: the claim says a transaction whose `offset_account`
matches no declared account causes a fatal `UnknownAccount` error; but the
code only checks the `account` leg, so `txOffsetUndeclared` (offset leg
`"Nowhere"` undeclared) validates without any error. -/
theorem claim_C3_cex :
    validateList [accChecking] [txOffsetUndeclared] = .ok () ∧
    (∀ a ∈ [accChecking], a.name ≠ txOffsetUndeclared.offset_account) :=
  ⟨(validateList_ok_iff [accChecking] [txOffsetUndeclared]).mpr
      (fun t ht => by
        rw [List.mem_singleton] at ht
        subst ht
        exact validateOne_missing_offset _ _ accChecking rfl rfl),
    by decide⟩

/-- C3 (amended): for every transaction, the Validator checks only that the
`account` leg names a declared account — an undeclared `account` is a fatal
`UnknownAccount` error, the whole run succeeding only if every transaction
passes — while an undeclared `offset_account` is not flagged at all (the
transaction validates even though the balance check is skipped for it). -/
theorem claim_C3_thm :
    (∀ (accounts : List Account) (t : Transaction),
        accounts.find? (fun a => decide (a.name = t.account)) = none →
        validateOne accounts t = .error (.unknownAccount t.account)) ∧
    (∀ (accounts : List Account) (t : Transaction) (ac : Account),
        accounts.find? (fun a => decide (a.name = t.account)) = some ac →
        accounts.find? (fun a => decide (a.name = t.offset_account)) = none →
        validateOne accounts t = .ok ()) ∧
    (∀ (l : Ledger),
        validate_transactions l = .ok () ↔
          ∀ t ∈ l.transactions, validateOne l.accounts t = .ok ()) := by
  refine ⟨?_, ?_, ?_⟩
  · intro accounts t h
    exact validateOne_unknown accounts t h
  · intro accounts t ac hac hoc
    exact validateOne_missing_offset accounts t ac hac hoc
  · intro l
    exact validateList_ok_iff l.accounts l.transactions

/-- C3 witness: the three parts instantiated at concrete inputs. -/
theorem claim_C3_thm_witness :
    validateOne [accChecking] txGhost = .error (.unknownAccount "Ghost") ∧
    validateOne [accChecking] txOffsetUndeclared = .ok () ∧
    (validate_transactions ⟨[accChecking], [txBalanced, txOffsetUndeclared], []⟩ = .ok () ↔
      ∀ t ∈ [txBalanced, txOffsetUndeclared],
        validateOne [accChecking] t = .ok ()) :=
  ⟨claim_C3_thm.1 [accChecking] txGhost rfl,
    claim_C3_thm.2.1 [accChecking] txOffsetUndeclared accChecking rfl rfl,
    claim_C3_thm.2.2 ⟨[accChecking], [txBalanced, txOffsetUndeclared], []⟩⟩

/-! ## C4: loader and missing fields -/

/-- An account record with every field present except `type`. -/
def rawNoType : RawAccount :=
  ⟨some "X", some ⟨2023, 1, 1⟩, some "USD", none, none⟩

/-- An account record with every field absent. -/
def rawEmpty : RawAccount := ⟨none, none, none, none, none⟩

/-- C4 counterexample: the claim says an account record with no `type` field
fails the load with `MissingField` and is not given a default type such as
`Assets`; but the loader succeeds on such a record and produces an account
whose type is exactly `Assets`. -/
theorem claim_C4_cex :
    rawNoType.type_ = none ∧
    _get_accounts (some [rawNoType]) =
      .ok [⟨"X", ⟨2023, 1, 1⟩, "USD", .Assets, none⟩] :=
  ⟨rfl, rfl⟩

/-- C4 (amended): loading accounts never fails — there is no `MissingField`
error path; every missing account field is silently defaulted: `name` and
`currency` default to the empty string, `open` to 1970-01-01 (the
`NaiveDate` default), and in particular a record with no `type` field is
given the default type `Assets`. -/
theorem claim_C4_thm :
    (∀ opt : Option (List RawAccount), ∃ accs, _get_accounts opt = .ok accs) ∧
    (∀ r : RawAccount, r.type_ = none → (mkAccount r).account_type = .Assets) ∧
    (∀ r : RawAccount, r.name = none → (mkAccount r).name = "") ∧
    (∀ r : RawAccount, r.currency = none → (mkAccount r).currency = "") ∧
    (∀ r : RawAccount, r.openDate = none → (mkAccount r).openDate = Date.epoch) := by
  refine ⟨?_, ?_, ?_, ?_, ?_⟩
  · intro opt
    cases opt <;> exact ⟨_, rfl⟩
  · intro r h
    simp [mkAccount, Account.new, h]
  · intro r h
    simp [mkAccount, Account.new, h, stripQuotes]
  · intro r h
    simp [mkAccount, Account.new, h, stripQuotes]
  · intro r h
    simp [mkAccount, Account.new, h]

/-- C4 witness: the theorem instantiated at concrete records. -/
theorem claim_C4_thm_witness :
    (∃ accs, _get_accounts (some [rawNoType]) = .ok accs) ∧
    (mkAccount rawEmpty).account_type = .Assets ∧
    (mkAccount rawEmpty).name = "" ∧
    (mkAccount rawEmpty).currency = "" ∧
    (mkAccount rawEmpty).openDate = Date.epoch :=
  ⟨claim_C4_thm.1 (some [rawNoType]),
    claim_C4_thm.2.1 rawEmpty rfl,
    claim_C4_thm.2.2.1 rawEmpty rfl,
    claim_C4_thm.2.2.2.1 rawEmpty rfl,
    claim_C4_thm.2.2.2.2 rawEmpty rfl⟩

/-! ## C9: total account-type parsing -/

/-- The nine recognized account-type strings. -/
def recognizedTypes : List String :=
  ["Assets", "Income", "Liabilities", "Expenses", "Equity", "Stocks",
    "MutualFunds", "Holdings", "Cash"]

/-- An Unknown-typed account. -/
def accMystery : Account := ⟨"Mystery", ⟨2023, 1, 1⟩, "USD", .Unknown, none⟩

/-- C9: parsing an account-type string is total (always `Ok`), an
unrecognized string maps to `Unknown`, and filtering accounts by an
unrecognized type string matches exactly the Unknown-typed accounts. -/
theorem claim_C9_thm :
    (∀ s : String, ∃ t, AccountType.fromStr s = .ok t) ∧
    (∀ s : String, s ∉ recognizedTypes →
      AccountType.fromStr s = .ok .Unknown) ∧
    (∀ (l : Ledger) (s : String), s ∉ recognizedTypes →
      _query_by_account_type l s =
        l.accounts.filter (fun a => decide (a.account_type = .Unknown))) := by
  have hunk : ∀ s : String, s ∉ recognizedTypes →
      AccountType.fromStr s = .ok .Unknown := by
    intro s hs
    simp only [recognizedTypes, List.mem_cons, List.not_mem_nil, or_false,
      not_or] at hs
    simp only [AccountType.fromStr]
    split <;> simp_all
  refine ⟨fun s => ⟨_, rfl⟩, hunk, ?_⟩
  intro l s hs
  simp only [_query_by_account_type, hunk s hs, unwrapOr]

/-- C9 witness: the concrete unrecognized string "Bogus" maps to `Unknown`
and filters exactly the Unknown-typed accounts. -/
theorem claim_C9_thm_witness :
    AccountType.fromStr "Bogus" = .ok .Unknown ∧
    _query_by_account_type ⟨[accChecking, accMystery], [], []⟩ "Bogus" =
      List.filter (fun a => decide (a.account_type = .Unknown))
        [accChecking, accMystery] :=
  ⟨claim_C9_thm.2.1 "Bogus" (by decide),
    claim_C9_thm.2.2 ⟨[accChecking, accMystery], [], []⟩ "Bogus" (by decide)⟩

/-! ## C7: period bucket keys -/

/-- C7: bucket-key derivation — "M" gives (year, month), "Q" gives
(year, quarter) with months 1-3 in Q1 through 10-12 in Q4, "Y" gives
(year, year), and no or unrecognized unit puts everything in (0, 0); the
transaction date 2023-05-15 falls in (2023, 2) by quarter, (2023, 5) by
month and (0, 0) with no unit. -/
theorem claim_C7_thm :
    (∀ d : Date, periodOf (some "M") d = (d.year, d.month)) ∧
    (∀ d : Date, periodOf (some "Q") d = (d.year, quarter d.month)) ∧
    (∀ d : Date, 1 ≤ d.month → d.month ≤ 12 →
      1 ≤ quarter d.month ∧ quarter d.month ≤ 4 ∧
        quarter d.month = (d.month + 2) / 3) ∧
    (∀ d : Date, periodOf (some "Y") d = (d.year, d.year)) ∧
    (∀ d : Date, periodOf none d = (0, 0)) ∧
    (∀ g : String, g ≠ "M" → g ≠ "Q" → g ≠ "Y" →
      ∀ d : Date, periodOf (some g) d = (0, 0)) ∧
    (periodOf (some "Q") ⟨2023, 5, 15⟩ = (2023, 2) ∧
      periodOf (some "M") ⟨2023, 5, 15⟩ = (2023, 5) ∧
      periodOf none ⟨2023, 5, 15⟩ = (0, 0)) := by
  refine ⟨fun d => rfl, fun d => rfl, ?_, fun d => rfl, fun d => rfl, ?_, ?_⟩
  · rintro ⟨y, m, dd⟩ h1 h2
    simp only at h1 h2 ⊢
    interval_cases m <;> simp [quarter]
  · intro g h1 h2 h3 d
    simp only [periodOf]
  · exact ⟨rfl, rfl, rfl⟩

/-- C7 witness: the quarter bounds and the unrecognized-unit fallback at
concrete inputs. -/
theorem claim_C7_thm_witness :
    (1 ≤ quarter (Date.mk 2023 5 15).month ∧
      quarter (Date.mk 2023 5 15).month ≤ 4 ∧
      quarter (Date.mk 2023 5 15).month = ((Date.mk 2023 5 15).month + 2) / 3) ∧
    periodOf (some "weekly") ⟨2023, 5, 15⟩ = (0, 0) :=
  ⟨claim_C7_thm.2.2.1 ⟨2023, 5, 15⟩ (by decide) (by decide),
    claim_C7_thm.2.2.2.2.2.1 "weekly" (by decide) (by decide) (by decide)
      ⟨2023, 5, 15⟩⟩

/-! ## Balance-map lemmas -/

theorem lookupA_addB (m : Balances) (k : String) (v : ℚ) (n : String) :
    lookupA (addB m k v) n =
      if n = k then some ((lookupA m k).getD 0 + v) else lookupA m n := by
  induction m with
  | nil =>
    by_cases h : n = k
    · subst h
      simp [addB, lookupA]
    · have h' : ¬k = n := fun hh => h hh.symm
      simp [addB, lookupA, h, h']
  | cons kv rest ih =>
    obtain ⟨k0, v0⟩ := kv
    by_cases hk : k0 = k
    · subst hk
      by_cases hn : n = k0
      · subst hn
        simp [addB, lookupA]
      · have hn' : ¬k0 = n := fun hh => hn hh.symm
        simp [addB, lookupA, hn, hn']
    · by_cases hn : n = k0
      · subst hn
        simp [addB, lookupA, hk]
      · have hn' : ¬k0 = n := fun hh => hn hh.symm
        simp [addB, lookupA, hk, hn', ih]

/-- Sequential `entry(k).or_insert(0.0) += v` updates over a list of
key/value pairs. -/
def addMany (m : Balances) (kvs : List (String × ℚ)) : Balances :=
  kvs.foldl (fun m kv => addB m kv.1 kv.2) m

theorem lookupA_addMany (kvs : List (String × ℚ)) (m : Balances) (n : String) :
    lookupA (addMany m kvs) n =
      if (lookupA m n).isSome || kvs.any (fun kv => decide (kv.1 = n)) then
        some ((lookupA m n).getD 0 +
          ((kvs.filter (fun kv => decide (kv.1 = n))).map Prod.snd).sum)
      else none := by
  induction kvs generalizing m with
  | nil =>
    cases h : lookupA m n <;> simp [addMany, h]
  | cons kv rest ih =>
    obtain ⟨k, v⟩ := kv
    have hstep : addMany m ((k, v) :: rest) = addMany (addB m k v) rest := by
      simp [addMany]
    rw [hstep, ih, lookupA_addB]
    by_cases hn : n = k
    · subst hn
      simp [add_assoc]
    · have h0 : decide (k = n) = false := decide_eq_false (fun hh => hn hh.symm)
      simp only [if_neg hn, List.any_cons, List.filter_cons, h0,
        Bool.false_or]
      simp

/-- The (key, added value) pairs the transaction loop of `_get_balances`
feeds to the map: `amount * quantity` for the `account` leg, `offset_amount`
for the `offset_account` leg. -/
def txnPairs : List Transaction → List (String × ℚ)
  | [] => []
  | t :: ts =>
    (t.account, t.amount * t.quantity) ::
      (t.offset_account, t.offset_amount) :: txnPairs ts

theorem applyTransactions_eq_addMany (m : Balances) (ts : List Transaction) :
    applyTransactions m ts = addMany m (txnPairs ts) := by
  induction ts generalizing m with
  | nil => simp [applyTransactions, addMany, txnPairs]
  | cons t ts ih =>
    simp only [applyTransactions, List.foldl_cons, txnPairs, addMany] at *
    exact ih _

/-- The (name, opening balance) pairs the seeding loop feeds to the map. -/
def accPairs (accounts : List Account) : List (String × ℚ) :=
  accounts.map (fun a => (a.name, a.opening_balance.getD 0))

theorem seedBalances_eq_addMany (accounts : List Account) :
    seedBalances accounts = addMany [] (accPairs accounts) := by
  simp [seedBalances, addMany, accPairs, List.foldl_map]

/-- The net contribution of one transaction to account `n`:
`amount * quantity` when `n` is its `account` leg plus `offset_amount` when
`n` is its `offset_account` leg. -/
def contrib (n : String) (t : Transaction) : ℚ :=
  (if t.account = n then t.amount * t.quantity else 0) +
    (if t.offset_account = n then t.offset_amount else 0)

/-- The summed opening balances of the accounts named `n` (0 when absent). -/
def openingSum (accounts : List Account) (n : String) : ℚ :=
  ((accounts.filter (fun a => decide (a.name = n))).map
    (fun a => a.opening_balance.getD 0)).sum

theorem txnPairs_filter_sum (ts : List Transaction) (n : String) :
    (((txnPairs ts).filter (fun kv => decide (kv.1 = n))).map Prod.snd).sum =
      (ts.map (contrib n)).sum := by
  induction ts with
  | nil => simp [txnPairs]
  | cons t ts ih =>
    by_cases h1 : t.account = n <;> by_cases h2 : t.offset_account = n <;>
      simp [txnPairs, contrib, h1, h2, ih] <;> ring

theorem txnPairs_any (ts : List Transaction) (n : String) :
    (txnPairs ts).any (fun kv => decide (kv.1 = n)) =
      ts.any (fun t => decide (t.account = n) || decide (t.offset_account = n)) := by
  induction ts with
  | nil => simp [txnPairs]
  | cons t ts ih =>
    simp [txnPairs, ih, Bool.or_assoc]

theorem accPairs_filter_sum (accounts : List Account) (n : String) :
    (((accPairs accounts).filter (fun kv => decide (kv.1 = n))).map
      Prod.snd).sum = openingSum accounts n := by
  unfold openingSum
  induction accounts with
  | nil => simp [accPairs]
  | cons a rest ih =>
    simp only [accPairs] at ih ⊢
    by_cases h : a.name = n <;> simp [List.filter_cons, h, ih]

theorem accPairs_any (accounts : List Account) (n : String) :
    (accPairs accounts).any (fun kv => decide (kv.1 = n)) =
      accounts.any (fun a => decide (a.name = n)) := by
  induction accounts with
  | nil => simp [accPairs]
  | cons a rest ih =>
    simp only [accPairs] at ih ⊢
    simp [ih]

theorem lookupA_seedBalances (accounts : List Account) (n : String) :
    lookupA (seedBalances accounts) n =
      if accounts.any (fun a => decide (a.name = n)) then
        some (openingSum accounts n)
      else none := by
  rw [seedBalances_eq_addMany, lookupA_addMany]
  simp [lookupA, accPairs_any, accPairs_filter_sum]

theorem openingSum_eq_zero (accounts : List Account) (n : String)
    (h : accounts.any (fun a => decide (a.name = n)) = false) :
    openingSum accounts n = 0 := by
  have : accounts.filter (fun a => decide (a.name = n)) = [] := by
    rw [List.filter_eq_nil_iff]
    intro a ha
    simp only [List.any_eq_false] at h
    exact h a ha
  simp [openingSum, this]

/-! ## C2: balance aggregation -/

theorem lookupA_get_balances_none (l : Ledger) (ts : List Transaction)
    (n : String) :
    lookupA (_get_balances l ts none) n =
      if l.accounts.any (fun a => decide (a.name = n)) ||
          ts.any (fun t =>
            decide (t.account = n) || decide (t.offset_account = n)) then
        some (openingSum l.accounts n + (ts.map (contrib n)).sum)
      else none := by
  show lookupA (applyTransactions (seedBalances l.accounts) ts) n = _
  rw [applyTransactions_eq_addMany, lookupA_addMany, lookupA_seedBalances,
    txnPairs_any, txnPairs_filter_sum]
  by_cases h : l.accounts.any (fun a => decide (a.name = n)) = true
  · simp [h]
  · rw [Bool.not_eq_true] at h
    rw [openingSum_eq_zero l.accounts n h]
    simp [h]

/-- The transaction of the claim's worked example. -/
def txC2 : Transaction :=
  ⟨⟨2023, 5, 15⟩, "Checking", none, none, 1, 50, "Savings", -50⟩

/-- Ledger of the worked example: `Checking` (opening balance 100),
`Savings` (no opening balance), one transaction of 50 against -50. -/
def ledgerC2 : Ledger := ⟨[accChecking, accSavings], [txC2], []⟩

/-- C2: balance aggregation seeds every declared account's entry with its
opening balance (0 when absent, duplicate names summing), then adds
`amount * quantity` to the `account` leg and `offset_amount` (without the
quantity multiplier) to the `offset_account` leg of every transaction; on
the worked example `Checking` maps to 150 and `Savings` to -50. -/
theorem claim_C2_thm :
    (∀ (l : Ledger) (ts : List Transaction) (n : String),
      lookupA (_get_balances l ts none) n =
        if l.accounts.any (fun a => decide (a.name = n)) ||
            ts.any (fun t =>
              decide (t.account = n) || decide (t.offset_account = n)) then
          some (openingSum l.accounts n + (ts.map (contrib n)).sum)
        else none) ∧
    lookupA (_get_balances ledgerC2 ledgerC2.transactions none) "Checking" =
      some 150 ∧
    lookupA (_get_balances ledgerC2 ledgerC2.transactions none) "Savings" =
      some (-50) := by
  refine ⟨lookupA_get_balances_none, ?_, ?_⟩ <;>
    norm_num [_get_balances, applyTransactions, seedBalances, addB, lookupA,
      ledgerC2, accChecking, accSavings, txC2] <;> decide

/-! ## C8: per-period aggregation -/

theorem lookupA_pushEntry (m : List ((Nat × Nat) × List Transaction))
    (p : Nat × Nat) (t : Transaction) (q : Nat × Nat) :
    lookupA (pushEntry m p t) q =
      if q = p then some ((lookupA m p).getD [] ++ [t]) else lookupA m q := by
  induction m with
  | nil =>
    by_cases h : q = p
    · subst h
      simp [pushEntry, lookupA]
    · have h' : ¬p = q := fun hh => h hh.symm
      simp [pushEntry, lookupA, h, h']
  | cons kv rest ih =>
    obtain ⟨p0, ts0⟩ := kv
    by_cases hk : p0 = p
    · subst hk
      by_cases hq : q = p0
      · subst hq
        simp [pushEntry, lookupA]
      · have hq' : ¬p0 = q := fun hh => hq hh.symm
        simp [pushEntry, lookupA, hq, hq']
    · by_cases hq : q = p0
      · subst hq
        simp [pushEntry, lookupA, hk]
      · have hq' : ¬p0 = q := fun hh => hq hh.symm
        simp [pushEntry, lookupA, hk, hq', ih]

theorem lookupA_groupFold (group : Option String) (ts : List Transaction)
    (m : List ((Nat × Nat) × List Transaction)) (p : Nat × Nat) :
    lookupA (ts.foldl (fun m t => pushEntry m (periodOf group t.date) t) m) p =
      if (lookupA m p).isSome ||
          ts.any (fun t => decide (periodOf group t.date = p)) then
        some ((lookupA m p).getD [] ++
          ts.filter (fun t => decide (periodOf group t.date = p)))
      else none := by
  induction ts generalizing m with
  | nil =>
    cases h : lookupA m p <;> simp [h]
  | cons t ts ih =>
    rw [List.foldl_cons, ih, lookupA_pushEntry]
    by_cases hp : p = periodOf group t.date
    · subst hp
      simp [List.filter_cons, List.append_assoc]
    · have hp' : ¬periodOf group t.date = p := fun hh => hp hh.symm
      have h0 : decide (periodOf group t.date = p) = false :=
        decide_eq_false hp'
      simp only [if_neg hp, List.any_cons, List.filter_cons, h0,
        Bool.false_or]
      simp

theorem lookupA_map_balances (l : Ledger) (price : Option String)
    (m : List ((Nat × Nat) × List Transaction)) (p : Nat × Nat) :
    lookupA (m.map
        (fun pt => (pt.1, retainNonzero (_get_balances l pt.2 price)))) p =
      (lookupA m p).map (fun b => retainNonzero (_get_balances l b price)) := by
  induction m with
  | nil => simp [lookupA]
  | cons kv rest ih =>
    by_cases h : kv.1 = p <;> simp [lookupA, h, ih]

/-- Two-months fixture: `Savings` has opening balance 5 and is driven to
exactly 0 in the January bucket. -/
def accSavings5 : Account := ⟨"Savings", ⟨2023, 1, 1⟩, "USD", .Assets, some 5⟩

/-- January transaction: Checking +5, Savings -5. -/
def txJan : Transaction :=
  ⟨⟨2023, 1, 10⟩, "Checking", none, none, 1, 5, "Savings", -5⟩

/-- February transaction: Checking +7, Savings -7. -/
def txFeb : Transaction :=
  ⟨⟨2023, 2, 20⟩, "Checking", none, none, 1, 7, "Savings", -7⟩

/-- Ledger for the period-grouping example. -/
def ledgerC8 : Ledger := ⟨[accChecking, accSavings5], [txJan, txFeb], []⟩

/-- C8: for every period bucket, the balance aggregator runs over exactly
that bucket's transactions (so every account's opening balance is re-seeded
into every bucket), and entries whose aggregated value is exactly zero are
dropped from that bucket's map. In the two-month example the 100 opening
balance of `Checking` appears in both monthly buckets (105 and 107), and
`Savings` (opening 5, driven to exactly 0 in January) is dropped from the
January bucket but kept at -2 in February. -/
theorem claim_C8_thm :
    (∀ (l : Ledger) (ts : List Transaction) (price group : Option String)
        (p : Nat × Nat),
      lookupA (_group_transactions_by_period l ts price group) p =
        if ts.any (fun t => decide (periodOf group t.date = p)) then
          some (retainNonzero (_get_balances l
            (ts.filter (fun t => decide (periodOf group t.date = p))) price))
        else none) ∧
    ((lookupA (_group_transactions_by_period ledgerC8 ledgerC8.transactions
        none (some "M")) (2023, 1)).bind
      (fun b => lookupA b "Checking") = some 105 ∧
      (lookupA (_group_transactions_by_period ledgerC8 ledgerC8.transactions
        none (some "M")) (2023, 1)).bind
        (fun b => lookupA b "Savings") = none ∧
      (lookupA (_group_transactions_by_period ledgerC8 ledgerC8.transactions
        none (some "M")) (2023, 2)).bind
        (fun b => lookupA b "Checking") = some 107 ∧
      (lookupA (_group_transactions_by_period ledgerC8 ledgerC8.transactions
        none (some "M")) (2023, 2)).bind
        (fun b => lookupA b "Savings") = some (-2)) := by
  constructor
  · intro l ts price group p
    show lookupA ((ts.foldl
        (fun m t => pushEntry m (periodOf group t.date) t) []).map
      (fun pt => (pt.1, retainNonzero (_get_balances l pt.2 price)))) p = _
    rw [lookupA_map_balances, lookupA_groupFold]
    by_cases h : ts.any (fun t => decide (periodOf group t.date = p)) = true
    · simp [lookupA, h]
    · rw [Bool.not_eq_true] at h
      simp [lookupA, h]
  · refine ⟨?_, ?_, ?_, ?_⟩ <;>
      norm_num [_group_transactions_by_period, ledgerC8, txJan, txFeb,
        accChecking, accSavings5, periodOf, quarter, pushEntry, retainNonzero,
        _get_balances, applyTransactions, seedBalances, addB, lookupA,
        List.filter] <;> decide

/-! ## C6: re-pricing lemmas -/

/-- Descending-date order between prices, as maintained by the sort. -/
abbrev priceGe (a b : Price) : Prop := Date.le b.date a.date = true

theorem mem_insertDesc (p : Price) (l : List Price) (a : Price) :
    a ∈ insertDesc p l ↔ a = p ∨ a ∈ l := by
  induction l with
  | nil => simp [insertDesc]
  | cons q rest ih =>
    by_cases h : Date.le q.date p.date <;>
      simp [insertDesc, h, ih] <;> tauto

theorem pairwise_insertDesc (p : Price) (l : List Price)
    (h : l.Pairwise priceGe) : (insertDesc p l).Pairwise priceGe := by
  induction l with
  | nil => simp [insertDesc]
  | cons q rest ih =>
    rw [List.pairwise_cons] at h
    by_cases hle : Date.le q.date p.date
    · simp only [insertDesc, if_pos hle]
      rw [List.pairwise_cons]
      refine ⟨?_, List.pairwise_cons.mpr h⟩
      intro x hx
      rcases List.mem_cons.mp hx with hx | hx
      · subst hx
        exact hle
      · exact Date.le_trans (h.1 x hx) hle
    · simp only [insertDesc, if_neg hle]
      rw [List.pairwise_cons]
      refine ⟨?_, ih h.2⟩
      intro y hy
      rcases (mem_insertDesc p rest y).mp hy with hy | hy
      · rw [hy]
        show Date.le p.date q.date = true
        rcases Date.le_total p.date q.date with hc | hc
        · exact hc
        · exact absurd hc hle
      · exact h.1 y hy

theorem mem_sortByDateDesc (l : List Price) (a : Price) :
    a ∈ sortByDateDesc l ↔ a ∈ l := by
  induction l with
  | nil => simp [sortByDateDesc]
  | cons p rest ih =>
    simp [sortByDateDesc, mem_insertDesc, ih]

theorem pairwise_sortByDateDesc (l : List Price) :
    (sortByDateDesc l).Pairwise priceGe := by
  induction l with
  | nil => simp [sortByDateDesc]
  | cons p rest ih => exact pairwise_insertDesc p _ ih

/-- In a descending-sorted price list, the first entry for a commodity has
the maximal date among that commodity's entries. -/
theorem find?_sorted_max (l : List Price) (c : String)
    (h : l.Pairwise priceGe) (p : Price)
    (hf : l.find? (fun q => decide (q.commodity = c)) = some p) :
    ∀ q ∈ l, q.commodity = c → Date.le q.date p.date = true := by
  induction l with
  | nil => simp at hf
  | cons x rest ih =>
    rw [List.pairwise_cons] at h
    rw [List.find?_cons] at hf
    by_cases hx : x.commodity = c
    · obtain hxp : x = p := by simpa [hx] using hf
      intro q hq hqc
      rcases List.mem_cons.mp hq with hq | hq
      · subst hq
        rw [← hxp]
        exact Date.le_refl q.date
      · rw [← hxp]
        exact h.1 q hq
    · rw [show decide (x.commodity = c) = false from decide_eq_false hx] at hf
      simp only at hf
      intro q hq hqc
      rcases List.mem_cons.mp hq with hq | hq
      · subst hq
        exact absurd hqc hx
      · exact ih h.2 hf q hq hqc

theorem lookupA_eq_none_iff_any {κ α : Type} [DecidableEq κ]
    (m : List (κ × α)) (k : κ) :
    lookupA m k = none ↔ m.any (fun kv => decide (kv.1 = k)) = false := by
  induction m with
  | nil => simp [lookupA]
  | cons kv rest ih =>
    by_cases h : kv.1 = k <;> simp [lookupA, h, ih]

theorem lookupA_append {κ α : Type} [DecidableEq κ] (m1 m2 : List (κ × α))
    (k : κ) :
    lookupA (m1 ++ m2) k =
      match lookupA m1 k with
      | some v => some v
      | none => lookupA m2 k := by
  induction m1 with
  | nil => simp [lookupA]
  | cons kv rest ih =>
    by_cases h : kv.1 = k <;> simp [lookupA, h, ih]

theorem lookupA_insertIfAbsent (m : List (String × ℚ)) (k : String) (v : ℚ)
    (c : String) :
    lookupA (insertIfAbsent m k v) c =
      match lookupA m c with
      | some w => some w
      | none => if k = c then some v else none := by
  unfold insertIfAbsent
  by_cases h : m.any (fun kv => decide (kv.1 = k)) = true
  · rw [if_pos h]
    cases hc : lookupA m c with
    | some w => simp
    | none =>
      by_cases hkc : k = c
      · subst hkc
        rw [(lookupA_eq_none_iff_any m k).mp hc] at h
        exact absurd h (by simp)
      · simp [hkc]
  · rw [if_neg h, lookupA_append]
    cases hc : lookupA m c with
    | some w => simp
    | none => simp [lookupA]

theorem lookupA_insFold (l : List Price) (m : List (String × ℚ)) (c : String) :
    lookupA (l.foldl (fun m p => insertIfAbsent m p.commodity p.price) m) c =
      match lookupA m c with
      | some v => some v
      | none =>
        (l.find? (fun p => decide (p.commodity = c))).map Price.price := by
  induction l generalizing m with
  | nil => cases hc : lookupA m c <;> simp [hc]
  | cons p rest ih =>
    rw [List.foldl_cons, ih, lookupA_insertIfAbsent]
    cases hc : lookupA m c with
    | some w => simp
    | none =>
      by_cases hpc : p.commodity = c
      · simp [hpc, List.find?_cons]
      · simp [hpc, List.find?_cons]

theorem relevantPrices_lookup (prices : List Price) (target c : String) :
    lookupA (relevantPrices prices target) c =
      ((sortByDateDesc (prices.filter
          (fun q => decide (q.currency = target)))).find?
        (fun p => decide (p.commodity = c))).map Price.price := by
  show lookupA ((sortByDateDesc _).foldl
    (fun m p => insertIfAbsent m p.commodity p.price) []) c = _
  rw [lookupA_insFold]
  simp [lookupA]

/-- The selection half of C6: a rate in `relevantPrices` comes from a
declared price quoted in the target currency for that commodity whose date
is maximal among such prices, and conversely any such price makes the
commodity priced. -/
theorem relevantPrices_spec (prices : List Price) (target c : String) :
    (∀ r : ℚ, lookupA (relevantPrices prices target) c = some r →
      ∃ p ∈ prices, p.currency = target ∧ p.commodity = c ∧ p.price = r ∧
        ∀ q ∈ prices, q.currency = target → q.commodity = c →
          Date.le q.date p.date = true) ∧
    (∀ q ∈ prices, q.currency = target → q.commodity = c →
      (lookupA (relevantPrices prices target) c).isSome = true) := by
  constructor
  · intro r hr
    rw [relevantPrices_lookup] at hr
    cases hf : (sortByDateDesc (prices.filter
        (fun q => decide (q.currency = target)))).find?
        (fun p => decide (p.commodity = c)) with
    | none => rw [hf] at hr; simp at hr
    | some p =>
      rw [hf] at hr
      obtain rfl : p.price = r := by simpa using hr
      have hmem : p ∈ sortByDateDesc (prices.filter
          (fun q => decide (q.currency = target))) :=
        List.mem_of_find?_eq_some hf
      have hmemf := (mem_sortByDateDesc _ p).mp hmem
      have hcur : p.currency = target := by
        have := List.of_mem_filter hmemf
        simpa using this
      have hpp : p ∈ prices := List.mem_of_mem_filter hmemf
      have hcom : p.commodity = c := by
        have := List.find?_some hf
        simpa using this
      refine ⟨p, hpp, hcur, hcom, rfl, ?_⟩
      intro q hq hqt hqc
      have hqf : q ∈ sortByDateDesc (prices.filter
          (fun q => decide (q.currency = target))) := by
        rw [mem_sortByDateDesc]
        exact List.mem_filter.mpr ⟨hq, by simpa using hqt⟩
      exact find?_sorted_max _ c (pairwise_sortByDateDesc _) p hf q hqf hqc
  · intro q hq hqt hqc
    rw [relevantPrices_lookup]
    have hqf : q ∈ sortByDateDesc (prices.filter
        (fun q => decide (q.currency = target))) := by
      rw [mem_sortByDateDesc]
      exact List.mem_filter.mpr ⟨hq, by simpa using hqt⟩
    have : ((sortByDateDesc (prices.filter
        (fun q => decide (q.currency = target)))).find?
        (fun p => decide (p.commodity = c))).isSome := by
      rw [List.find?_isSome]
      exact ⟨q, hqf, by simpa using hqc⟩
    cases hf : (sortByDateDesc (prices.filter
        (fun q => decide (q.currency = target)))).find?
        (fun p => decide (p.commodity = c)) with
    | none => rw [hf] at this; simp at this
    | some p => simp

theorem lookupA_mulB (m : Balances) (k : String) (r : ℚ) (n : String) :
    lookupA (mulB m k r) n =
      if n = k then some ((lookupA m k).getD 0 * r) else lookupA m n := by
  induction m with
  | nil =>
    by_cases h : n = k
    · subst h
      simp [mulB, lookupA]
    · have h' : ¬k = n := fun hh => h hh.symm
      simp [mulB, lookupA, h, h']
  | cons kv rest ih =>
    obtain ⟨k0, v0⟩ := kv
    by_cases hk : k0 = k
    · subst hk
      by_cases hn : n = k0
      · subst hn
        simp [mulB, lookupA]
      · have hn' : ¬k0 = n := fun hh => hn hh.symm
        simp [mulB, lookupA, hn, hn']
    · by_cases hn : n = k0
      · subst hn
        simp [mulB, lookupA, hk]
      · have hn' : ¬k0 = n := fun hh => hn hh.symm
        simp [mulB, lookupA, hk, hn', ih]

theorem lookupA_eq_none_of_not_mem_keys {κ α : Type} [DecidableEq κ]
    (m : List (κ × α)) (k : κ) (h : k ∉ m.map Prod.fst) :
    lookupA m k = none := by
  induction m with
  | nil => simp [lookupA]
  | cons kv rest ih =>
    rw [List.map_cons, List.mem_cons] at h
    push_neg at h
    have : ¬kv.1 = k := fun hh => h.1 hh.symm
    simp [lookupA, this, ih h.2]

/-- The inner re-pricing loop over the relevant prices multiplies the
account's entry exactly once — by the rate its currency is mapped to — when
the relevant-price keys are unique. -/
theorem pricingInner_eq (rp : List (String × ℚ))
    (hnd : (rp.map Prod.fst).Nodup) (a : Account) (m : Balances) :
    rp.foldl
        (fun m cr => if cr.1 = a.currency then mulB m a.name cr.2 else m) m =
      match lookupA rp a.currency with
      | some r => mulB m a.name r
      | none => m := by
  induction rp generalizing m with
  | nil => simp [lookupA]
  | cons cr rest ih =>
    rw [List.map_cons, List.nodup_cons] at hnd
    rw [List.foldl_cons]
    by_cases h : cr.1 = a.currency
    · rw [if_pos h]
      have hnone : lookupA rest a.currency = none := by
        apply lookupA_eq_none_of_not_mem_keys
        rw [← h]
        exact hnd.1
      rw [ih hnd.2, hnone]
      simp [lookupA, h]
    · rw [if_neg h, ih hnd.2]
      simp [lookupA, h]

theorem insertIfAbsent_keys_nodup (m : List (String × ℚ)) (k : String)
    (v : ℚ) (h : (m.map Prod.fst).Nodup) :
    ((insertIfAbsent m k v).map Prod.fst).Nodup := by
  unfold insertIfAbsent
  by_cases ha : m.any (fun kv => decide (kv.1 = k)) = true
  · rw [if_pos ha]
    exact h
  · rw [if_neg ha]
    rw [List.map_append]
    refine List.Nodup.append h (by simp) ?_
    intro x hx hx2
    rw [List.map_singleton, List.mem_singleton] at hx2
    subst hx2
    rw [Bool.not_eq_true, List.any_eq_false] at ha
    rw [List.mem_map] at hx
    obtain ⟨kv, hkv, hk⟩ := hx
    exact absurd (by simpa using hk) (by simpa using ha kv hkv)

theorem insFold_keys_nodup (l : List Price) (m : List (String × ℚ))
    (h : (m.map Prod.fst).Nodup) :
    (((l.foldl (fun m p => insertIfAbsent m p.commodity p.price) m)).map
      Prod.fst).Nodup := by
  induction l generalizing m with
  | nil => exact h
  | cons p rest ih =>
    rw [List.foldl_cons]
    exact ih _ (insertIfAbsent_keys_nodup m p.commodity p.price h)

theorem relevantPrices_keys_nodup (prices : List Price) (target : String) :
    ((relevantPrices prices target).map Prod.fst).Nodup := by
  exact insFold_keys_nodup _ [] (by simp)

theorem lookupA_applyPricing_not_mem (accounts : List Account)
    (rp : List (String × ℚ)) (hrp : (rp.map Prod.fst).Nodup) (n : String)
    (h : ∀ b ∈ accounts, b.name ≠ n) (m : Balances) :
    lookupA (applyPricing accounts rp m) n = lookupA m n := by
  induction accounts generalizing m with
  | nil => rfl
  | cons b rest ih =>
    show lookupA (applyPricing rest rp (rp.foldl
      (fun m cr => if cr.1 = b.currency then mulB m b.name cr.2 else m) m)) n
        = _
    rw [ih (fun c hc => h c (List.mem_cons_of_mem b hc)),
      pricingInner_eq rp hrp b m]
    have hbn : ¬n = b.name := fun hh => h b (List.mem_cons_self b rest) hh.symm
    cases hr : lookupA rp b.currency with
    | some r => rw [lookupA_mulB, if_neg hbn]
    | none => rfl

/-- The account loop of the re-pricing phase: with unique account names and
unique relevant-price keys, the entry of a declared account is multiplied by
its currency's rate when one exists and left unchanged otherwise. -/
theorem lookupA_applyPricing (accounts : List Account)
    (rp : List (String × ℚ)) (hrp : (rp.map Prod.fst).Nodup) (a : Account)
    (ha : a ∈ accounts)
    (hnd : (accounts.map (fun b => b.name)).Nodup) (m : Balances) :
    lookupA (applyPricing accounts rp m) a.name =
      match lookupA rp a.currency with
      | some r => some ((lookupA m a.name).getD 0 * r)
      | none => lookupA m a.name := by
  induction accounts generalizing m with
  | nil => cases ha
  | cons b rest ih =>
    rw [List.map_cons, List.nodup_cons] at hnd
    show lookupA (applyPricing rest rp (rp.foldl
      (fun m cr => if cr.1 = b.currency then mulB m b.name cr.2 else m) m))
        a.name = _
    rcases List.mem_cons.mp ha with hab | hmem
    · subst hab
      have hrest : ∀ c ∈ rest, c.name ≠ a.name := by
        intro c hc he
        exact hnd.1 (he ▸ List.mem_map_of_mem (fun b => b.name) hc)
      rw [lookupA_applyPricing_not_mem rest rp hrp a.name hrest,
        pricingInner_eq rp hrp a m]
      cases hr : lookupA rp a.currency with
      | some r => rw [lookupA_mulB, if_pos rfl]
      | none => rfl
    · have hbn : ¬a.name = b.name := by
        intro he
        exact hnd.1 (he ▸ List.mem_map_of_mem (fun b => b.name) hmem)
      rw [ih hmem hnd.2, pricingInner_eq rp hrp b m]
      cases hr : lookupA rp b.currency with
      | some r =>
        rw [lookupA_mulB, if_neg hbn]
      | none => rfl

/-- Account holding half a BTC (as its opening balance). -/
def accCrypto : Account := ⟨"Crypto", ⟨2023, 1, 1⟩, "BTC", .Assets, some (1/2)⟩

/-- The BTC price record of the claim's example. -/
def priceBTC : Price := ⟨⟨2023, 10, 2⟩, "BTC", 40000, "USD"⟩

/-- Ledger for the re-pricing example. -/
def ledgerC6 : Ledger := ⟨[accCrypto], [], [priceBTC]⟩

/-- C6: when a target currency is requested, each commodity's rate is taken
from a declared price quoted in that currency with maximal date; every
declared account (with unique names) whose currency has such a rate gets its
running balance multiplied by it, and accounts with no matching price keep
their aggregated balance unchanged, with no error; the worked example prices
0.5 BTC at 40000 into 20000 USD. -/
theorem claim_C6_thm :
    (∀ (prices : List Price) (target c : String) (r : ℚ),
      lookupA (relevantPrices prices target) c = some r →
        ∃ p ∈ prices, p.currency = target ∧ p.commodity = c ∧ p.price = r ∧
          ∀ q ∈ prices, q.currency = target → q.commodity = c →
            Date.le q.date p.date = true) ∧
    (∀ (prices : List Price) (target : String), ∀ q ∈ prices,
      q.currency = target → ∀ c, q.commodity = c →
        (lookupA (relevantPrices prices target) c).isSome = true) ∧
    (∀ (l : Ledger) (ts : List Transaction) (target : String) (a : Account),
      a ∈ l.accounts → (l.accounts.map (fun b => b.name)).Nodup →
        lookupA (_get_balances l ts (some target)) a.name =
          match lookupA (relevantPrices l.prices target) a.currency with
          | some r =>
            some ((lookupA (_get_balances l ts none) a.name).getD 0 * r)
          | none => lookupA (_get_balances l ts none) a.name) ∧
    lookupA (_get_balances ledgerC6 [] (some "USD")) "Crypto" = some 20000 := by
  refine ⟨?_, ?_, ?_, ?_⟩
  · intro prices target c r hr
    exact (relevantPrices_spec prices target c).1 r hr
  · intro prices target q hq hqt c hqc
    exact (relevantPrices_spec prices target c).2 q hq hqt hqc
  · intro l ts target a ha hnd
    show lookupA (applyPricing l.accounts (relevantPrices l.prices target)
      (applyTransactions (seedBalances l.accounts) ts)) a.name = _
    rw [lookupA_applyPricing l.accounts _
      (relevantPrices_keys_nodup l.prices target) a ha hnd]
    rfl
  · norm_num [_get_balances, applyTransactions, seedBalances, addB, lookupA,
      ledgerC6, accCrypto, priceBTC, applyPricing, relevantPrices,
      sortByDateDesc, insertDesc, insertIfAbsent, mulB]

/-- C6 witness: the three general parts instantiated on the BTC example. -/
theorem claim_C6_thm_witness :
    (∃ p ∈ [priceBTC], p.currency = "USD" ∧ p.commodity = "BTC" ∧
      p.price = 40000 ∧ ∀ q ∈ [priceBTC], q.currency = "USD" →
        q.commodity = "BTC" → Date.le q.date p.date = true) ∧
    (lookupA (relevantPrices [priceBTC] "USD") "BTC").isSome = true ∧
    lookupA (_get_balances ledgerC6 [] (some "USD")) "Crypto" =
      match lookupA (relevantPrices ledgerC6.prices "USD")
          accCrypto.currency with
      | some r =>
        some ((lookupA (_get_balances ledgerC6 [] none) "Crypto").getD 0 * r)
      | none => lookupA (_get_balances ledgerC6 [] none) "Crypto" :=
  ⟨claim_C6_thm.1 [priceBTC] "USD" "BTC" 40000 (by
      norm_num [relevantPrices, sortByDateDesc, insertDesc, insertIfAbsent,
        lookupA, priceBTC]),
    claim_C6_thm.2.1 [priceBTC] "USD" priceBTC (by simp) rfl "BTC" rfl,
    claim_C6_thm.2.2.1 ledgerC6 [] "USD" accCrypto (by simp [ledgerC6])
      (by simp [ledgerC6, accCrypto])⟩

/-! ## C5: journal filter composition -/

/-- A transaction dated long before 2022 with payee "P". -/
def txOld : Transaction :=
  ⟨⟨1980, 1, 1⟩, "Checking", none, some "P", 1, 5, "Checking", -5⟩

/-- Ledger for the filter-composition counterexample. -/
def ledgerC5 : Ledger := ⟨[accChecking], [txOld], []⟩

/-- C5 counterexample: requesting both a from-date of 2022-01-01 and the
payee "P" emits `txOld` (dated 1980-01-01), which violates the date
predicate — the emitted set is not the intersection of the individual
filters (the date filter alone yields the empty list). -/
theorem claim_C5_cex :
    journalEmitted ledgerC5 (some "2022-01-01") none none none (some "P") =
      [txOld] ∧
    Date.le ⟨2022, 1, 1⟩ txOld.date = false ∧
    parseDate "2022-01-01" = some ⟨2022, 1, 1⟩ ∧
    _query_by_transaction_date ledgerC5 (some "2022-01-01") none = [] :=
  ⟨rfl, rfl, by decide, rfl⟩

/-- C5 (amended): the journal filters do not compose by intersection — a
requested payee filter REPLACES the date filter (it queries the full
transaction list), and a requested account-name filter REPLACES the
account-type filter; only with no payee does the date filter apply, and a
transaction is emitted iff it survives the (last-applied) transaction filter
and some account surviving the (last-applied) account filter matches one of
its legs. -/
theorem claim_C5_thm :
    (∀ (l : Ledger) (f t : Option String) (p : String),
      journalTransactionFilter l f t (some p) =
        _query_by_transaction_payee l p) ∧
    (∀ (l : Ledger) (f t : String),
      journalTransactionFilter l (some f) (some t) none =
        _query_by_transaction_date l (some f) (some t)) ∧
    (∀ (l : Ledger) (f : String),
      journalTransactionFilter l (some f) none none =
        _query_by_transaction_date l (some f) none) ∧
    (∀ (l : Ledger) (t : String),
      journalTransactionFilter l none (some t) none =
        _query_by_transaction_date l none (some t)) ∧
    (∀ l : Ledger,
      journalTransactionFilter l none none none = l.transactions) ∧
    (∀ (l : Ledger) (at_ : Option String) (n : String),
      journalAccountFilter l at_ (some n) = _query_by_account_name l n) ∧
    (∀ (l : Ledger) (at_ : String),
      journalAccountFilter l (some at_) none = _query_by_account_type l at_) ∧
    (∀ (l : Ledger) (f t at_ n p : Option String) (x : Transaction),
      x ∈ journalEmitted l f t at_ n p ↔
        x ∈ journalTransactionFilter l f t p ∧
          ∃ a ∈ journalAccountFilter l at_ n,
            a.name = x.account ∨ a.name = x.offset_account) := by
  refine ⟨fun l f t p => ?_, fun l f t => rfl, fun l f => rfl, fun l t => rfl,
    fun l => rfl, fun l at_ n => ?_, fun l at_ => rfl, fun l f t at_ n p x => ?_⟩
  · cases f <;> cases t <;> rfl
  · cases at_ <;> rfl
  · simp [journalEmitted, List.mem_filter, List.any_eq_true]

/-! ## C10: date-range filter fallback -/

/-- C10: a from/to bound that does not parse as an ISO date is silently
replaced by the default date 1970-01-01 (no InvalidDate error is possible:
the filter is a total function); in particular an unparseable `to` bound
excludes every transaction dated after 1970-01-01, an unparseable `from`
bound behaves like an absent one, and parseable bounds filter inclusively on
both ends. -/
theorem claim_C10_thm :
    (∀ (l : Ledger) (s : String), parseDate s = none →
      _query_by_transaction_date l (some s) none =
        l.transactions.filter (fun t =>
          Date.le Date.epoch t.date && Date.le t.date ⟨2999, 1, 1⟩)) ∧
    (∀ (l : Ledger) (s : String), parseDate s = none →
      _query_by_transaction_date l (some s) none =
        _query_by_transaction_date l none none) ∧
    (∀ (l : Ledger) (s : String), parseDate s = none →
      _query_by_transaction_date l none (some s) =
        l.transactions.filter (fun t =>
          Date.le Date.epoch t.date && Date.le t.date Date.epoch)) ∧
    (∀ (l : Ledger) (s : String) (x : Transaction), parseDate s = none →
      x ∈ _query_by_transaction_date l none (some s) →
        Date.le x.date Date.epoch = true) ∧
    (∀ (l : Ledger) (f t : String) (df dt : Date),
      parseDate f = some df → parseDate t = some dt →
        _query_by_transaction_date l (some f) (some t) =
          l.transactions.filter (fun x =>
            Date.le df x.date && Date.le x.date dt)) := by
  have h29 : parseDate "2999-01-01" = some ⟨2999, 1, 1⟩ := by decide
  have h70 : parseDate "1970-01-01" = some Date.epoch := by decide
  have key : ∀ (l : Ledger) (s : String), parseDate s = none →
      _query_by_transaction_date l none (some s) =
        l.transactions.filter (fun t =>
          Date.le Date.epoch t.date && Date.le t.date Date.epoch) := by
    intro l s h
    simp [_query_by_transaction_date, h, h70]
  refine ⟨?_, ?_, key, ?_, ?_⟩
  · intro l s h
    simp [_query_by_transaction_date, h, h29]
  · intro l s h
    simp [_query_by_transaction_date, h, h29, h70]
  · intro l s x h hx
    rw [key l s h] at hx
    have := (List.mem_filter.mp hx).2
    exact (Bool.and_eq_true .. ▸ this).2
  · intro l f t df dt hf ht
    simp [_query_by_transaction_date, hf, ht]

/-- C10 witness: the unparseable bound "banana" and a parseable 2022-2024
range, on the concrete example ledger. -/
theorem claim_C10_thm_witness :
    _query_by_transaction_date ledgerC5 none (some "banana") =
      ledgerC5.transactions.filter (fun t =>
        Date.le Date.epoch t.date && Date.le t.date Date.epoch) ∧
    _query_by_transaction_date ledgerC5 (some "banana") none =
      _query_by_transaction_date ledgerC5 none none ∧
    _query_by_transaction_date ledgerC5 (some "2022-01-01")
        (some "2024-01-01") =
      ledgerC5.transactions.filter (fun x =>
        Date.le ⟨2022, 1, 1⟩ x.date && Date.le x.date ⟨2024, 1, 1⟩) :=
  ⟨claim_C10_thm.2.2.1 ledgerC5 "banana" (by decide),
    claim_C10_thm.2.1 ledgerC5 "banana" (by decide),
    claim_C10_thm.2.2.2.2 ledgerC5 "2022-01-01" "2024-01-01" ⟨2022, 1, 1⟩
      ⟨2024, 1, 1⟩ (by decide) (by decide)⟩

end Abacus
